import Mathlib

/-!
Verification of the event-sourced ledger in `src/rostr/ledger.py`.

The embedding models JSON values (`JVal`), Python-dict operations with
Python's insertion-order semantics, the exceptions the interpreter can
raise while the reducer runs (`PyErr`), and the functions
`append_event`, `rebuild_state` (its per-line body as `processLine` /
`applyEvent`), `_save_state` and `load_state` from the source.
-/

namespace Rostr

/-- A JSON value as produced by `json.loads`.  JSON numbers in the
journal are modelled as integers: the reducer never computes with
numeric payload values, it only stores and copies them. -/
inductive JVal : Type where
  | str : String → JVal
  | num : Int → JVal
  | bool : Bool → JVal
  | null : JVal
  | arr : List JVal → JVal
  | obj : List (String × JVal) → JVal

mutual

/-- Structural boolean equality on JSON values (Python `==` on values
returned by `json.loads`; the coincidence `True == 1` between Python
booleans and numbers is not modelled — values of distinct JSON types
compare unequal). -/
def JVal.beq : JVal → JVal → Bool
  | .str a, .str b => a == b
  | .num a, .num b => a == b
  | .bool a, .bool b => a == b
  | .null, .null => true
  | .arr a, .arr b => JVal.beqArr a b
  | .obj a, .obj b => JVal.beqObj a b
  | _, _ => false

/-- Elementwise equality of JSON arrays. -/
def JVal.beqArr : List JVal → List JVal → Bool
  | [], [] => true
  | x :: xs, y :: ys => JVal.beq x y && JVal.beqArr xs ys
  | _, _ => false

/-- Entrywise equality of JSON objects. -/
def JVal.beqObj : List (String × JVal) → List (String × JVal) → Bool
  | [], [] => true
  | (k1, v1) :: xs, (k2, v2) :: ys => k1 == k2 && JVal.beq v1 v2 && JVal.beqObj xs ys
  | _, _ => false

end

mutual

theorem JVal.beq_iff : ∀ a b : JVal, JVal.beq a b = true ↔ a = b
  | .str a, .str b => by simp [JVal.beq]
  | .num a, .num b => by simp [JVal.beq]
  | .bool a, .bool b => by simp [JVal.beq]
  | .null, .null => by simp [JVal.beq]
  | .arr a, .arr b => by simp [JVal.beq, JVal.beqArr_iff a b]
  | .obj a, .obj b => by simp [JVal.beq, JVal.beqObj_iff a b]
  | .str a, .num b => by simp [JVal.beq]
  | .str a, .bool b => by simp [JVal.beq]
  | .str a, .null => by simp [JVal.beq]
  | .str a, .arr b => by simp [JVal.beq]
  | .str a, .obj b => by simp [JVal.beq]
  | .num a, .str b => by simp [JVal.beq]
  | .num a, .bool b => by simp [JVal.beq]
  | .num a, .null => by simp [JVal.beq]
  | .num a, .arr b => by simp [JVal.beq]
  | .num a, .obj b => by simp [JVal.beq]
  | .bool a, .str b => by simp [JVal.beq]
  | .bool a, .num b => by simp [JVal.beq]
  | .bool a, .null => by simp [JVal.beq]
  | .bool a, .arr b => by simp [JVal.beq]
  | .bool a, .obj b => by simp [JVal.beq]
  | .null, .str b => by simp [JVal.beq]
  | .null, .num b => by simp [JVal.beq]
  | .null, .bool b => by simp [JVal.beq]
  | .null, .arr b => by simp [JVal.beq]
  | .null, .obj b => by simp [JVal.beq]
  | .arr a, .str b => by simp [JVal.beq]
  | .arr a, .num b => by simp [JVal.beq]
  | .arr a, .bool b => by simp [JVal.beq]
  | .arr a, .null => by simp [JVal.beq]
  | .arr a, .obj b => by simp [JVal.beq]
  | .obj a, .str b => by simp [JVal.beq]
  | .obj a, .num b => by simp [JVal.beq]
  | .obj a, .bool b => by simp [JVal.beq]
  | .obj a, .null => by simp [JVal.beq]
  | .obj a, .arr b => by simp [JVal.beq]

theorem JVal.beqArr_iff : ∀ a b : List JVal, JVal.beqArr a b = true ↔ a = b
  | [], [] => by simp [JVal.beqArr]
  | x :: xs, y :: ys => by
    simp [JVal.beqArr, JVal.beq_iff x y, JVal.beqArr_iff xs ys]
  | [], _ :: _ => by simp [JVal.beqArr]
  | _ :: _, [] => by simp [JVal.beqArr]

theorem JVal.beqObj_iff : ∀ a b : List (String × JVal), JVal.beqObj a b = true ↔ a = b
  | [], [] => by simp [JVal.beqObj]
  | (k1, v1) :: xs, (k2, v2) :: ys => by
    simp [JVal.beqObj, JVal.beq_iff v1 v2, JVal.beqObj_iff xs ys, and_assoc]
  | [], _ :: _ => by simp [JVal.beqObj]
  | _ :: _, [] => by simp [JVal.beqObj]

end

instance : DecidableEq JVal :=
  fun a b => decidable_of_iff (JVal.beq a b = true) (JVal.beq_iff a b)

/-- The Python exceptions that the ledger code can raise while
reducing: `KeyError` from `d[k]` on a dict missing `k`, `TypeError`
from subscripting a non-dict or using an unhashable dict key,
`json.JSONDecodeError` from `json.loads` on an unparseable line, and
`AttributeError` from calling a dict method on a non-dict value. -/
inductive PyErr : Type where
  | keyError : PyErr
  | typeError : PyErr
  | jsonDecodeError : PyErr
  | attributeError : PyErr
  deriving DecidableEq

/-! ## Python dict operations

Python dicts preserve insertion order: assigning to an existing key
replaces the value in place (keeping the key's position), assigning a
fresh key appends it at the end.  String-keyed dicts (JSON objects,
the records stored in the maps) use `o…` operations; the three state
maps, whose keys are whatever JSON value the payload supplied, use
`d…` operations keyed by `JVal`. -/

/-- `kvs[k]`-style first-match lookup in a string-keyed dict. -/
def oLookup : List (String × JVal) → String → Option JVal
  | [], _ => none
  | (k0, v0) :: t, k => if k0 = k then some v0 else oLookup t k

/-- `kvs[k] = v`: replace the value at `k` in place, else append. -/
def oSet : List (String × JVal) → String → JVal → List (String × JVal)
  | [], k, v => [(k, v)]
  | (k0, v0) :: t, k, v => if k0 = k then (k0, v) :: t else (k0, v0) :: oSet t k v

/-- `k in kvs`. -/
def oHas (r : List (String × JVal)) (k : String) : Bool :=
  (oLookup r k).isSome

/-- `r.update(d)`: assign every entry of `d`, in order, into `r`. -/
def oUpdate (r d : List (String × JVal)) : List (String × JVal) :=
  d.foldl (fun acc kv => oSet acc kv.1 kv.2) r

/-- First-match lookup in a `JVal`-keyed state map. -/
def dLookup : List (JVal × JVal) → JVal → Option JVal
  | [], _ => none
  | (k0, v0) :: t, k => if k0 = k then some v0 else dLookup t k

/-- `m[k] = v` on a state map. -/
def dSet : List (JVal × JVal) → JVal → JVal → List (JVal × JVal)
  | [], k, v => [(k, v)]
  | (k0, v0) :: t, k, v => if k0 = k then (k0, v) :: t else (k0, v0) :: dSet t k v

/-- `k in m` on a state map. -/
def dMem (m : List (JVal × JVal)) (k : JVal) : Bool :=
  (dLookup m k).isSome

/-- `del m[k]` on a state map (keys are unique, so removing the first
occurrence removes the key). -/
def dDel : List (JVal × JVal) → JVal → List (JVal × JVal)
  | [], _ => []
  | (k0, v0) :: t, k => if k0 = k then t else (k0, v0) :: dDel t k

/-- Python `v[k]` with a string key: key lookup on a dict
(`KeyError` when absent), `TypeError` on any non-dict JSON value. -/
def jGet : JVal → String → Except PyErr JVal
  | .obj kvs, k =>
    match oLookup kvs k with
    | some v => .ok v
    | none => .error .keyError
  | _, _ => .error .typeError

/-- Python `v.get(k, dflt)`: only dicts have `.get`
(`AttributeError` otherwise). -/
def jGetD : JVal → String → JVal → Except PyErr JVal
  | .obj kvs, k, dflt => .ok ((oLookup kvs k).getD dflt)
  | _, _, _ => .error .attributeError

/-- Python `v == s` for a string literal `s`: true exactly for the
equal JSON string. -/
def jEqStr : JVal → String → Bool
  | .str a, s => a == s
  | _, _ => false

/-- Whether a JSON value is hashable in Python (usable as a dict
key): lists and dicts are not. -/
def hashable : JVal → Bool
  | .arr _ => false
  | .obj _ => false
  | _ => true

/-! ## The reducer (`rebuild_state`, ledger.py lines 38–110) -/

/-- The three in-memory maps built by `rebuild_state`. -/
structure RState : Type where
  people : List (JVal × JVal)
  projects : List (JVal × JVal)
  allocations : List (JVal × JVal)
  deriving DecidableEq

/-- The empty starting state (`ledger.py` lines 44–46). -/
def emptyState : RState := ⟨[], [], []⟩

/-- One line of the journal file, abstracted by its parse outcome:
`blank` when `line.strip()` is empty, `corrupt` when `json.loads`
raises, `val v` when `json.loads` returns the JSON value `v`. -/
inductive Line : Type where
  | blank : Line
  | corrupt : Line
  | val : JVal → Line
  deriving DecidableEq

/-- `PERSON_ADDED` (ledger.py lines 66–67):
`state_people[data["email"]] = data`. -/
def applyPersonAdded (s : RState) (data : JVal) : Except PyErr RState :=
  match jGet data "email" with
  | .error e => .error e
  | .ok k =>
    if hashable k then .ok { s with people := dSet s.people k data }
    else .error .typeError

/-- `PERSON_EDITED` (ledger.py lines 68–70): if `data["email"]` is in
the map, `state_people[data["email"]].update(data)`. -/
def applyPersonEdited (s : RState) (data : JVal) : Except PyErr RState :=
  match jGet data "email" with
  | .error e => .error e
  | .ok k =>
    if hashable k then
      if dMem s.people k then
        match dLookup s.people k, data with
        | some (.obj r), .obj d =>
          .ok { s with people := dSet s.people k (.obj (oUpdate r d)) }
        | some _, _ => .error .attributeError
        | none, _ => .error .keyError
      else .ok s
    else .error .typeError

/-- `PERSON_DELETED` (ledger.py lines 71–73): if present, set
`is_active` to `False`. -/
def applyPersonDeleted (s : RState) (data : JVal) : Except PyErr RState :=
  match jGet data "email" with
  | .error e => .error e
  | .ok k =>
    if hashable k then
      if dMem s.people k then
        match dLookup s.people k with
        | some (.obj r) =>
          .ok { s with people := dSet s.people k (.obj (oSet r "is_active" (.bool false))) }
        | some _ => .error .typeError
        | none => .error .keyError
      else .ok s
    else .error .typeError

/-- Lines 80–81 of ledger.py: initialize the `unavailability` list
when the record does not have one yet. -/
def unavailInit (r0 : List (String × JVal)) : List (String × JVal) :=
  if oHas r0 "unavailability" then r0 else oSet r0 "unavailability" (.arr [])

/-- The body of the `elif e_type == "UNAVAILABILITY_ADDED"` arm
(ledger.py lines 78–86), reachable only from inside the
`PERSON_OFFBOARDED` branch and therefore dead code. -/
def applyUnavailabilityAdded (s : RState) (data : JVal) : Except PyErr RState :=
  match jGet data "email" with
  | .error e => .error e
  | .ok email =>
    if hashable email then
      if dMem s.people email then
        match dLookup s.people email with
        | some (.obj r0) =>
          match oLookup (unavailInit r0) "unavailability" with
          | some (.arr xs) =>
            match jGet data "start_date" with
            | .error e => .error e
            | .ok sd =>
              match jGet data "end_date" with
              | .error e => .error e
              | .ok ed2 =>
                match jGetD data "reason" (.str "PTO") with
                | .error e => .error e
                | .ok rsn =>
                  .ok { s with people := dSet s.people email (.obj (oSet (unavailInit r0)
                    "unavailability" (.arr (xs ++
                      [.obj [("start_date", sd), ("end_date", ed2), ("reason", rsn)]])))) }
          | some _ => .error .attributeError
          | none => .error .attributeError
        | some _ => .error .typeError
        | none => .error .keyError
      else .ok s
    else .error .typeError

/-- `PERSON_OFFBOARDED` (ledger.py lines 74–86): if `data["email"]`
is present, set `exit_date`; otherwise fall to the nested
`elif e_type == "UNAVAILABILITY_ADDED"` arm — dead, because `e_type`
is `PERSON_OFFBOARDED` in this branch. -/
def applyPersonOffboarded (s : RState) (etype data : JVal) : Except PyErr RState :=
  match jGet data "email" with
  | .error e => .error e
  | .ok k =>
    if hashable k then
      if dMem s.people k then
        match jGet data "exit_date" with
        | .error e => .error e
        | .ok ed =>
          match dLookup s.people k with
          | some (.obj r) =>
            .ok { s with people := dSet s.people k (.obj (oSet r "exit_date" ed)) }
          | some _ => .error .typeError
          | none => .error .keyError
      else if jEqStr etype "UNAVAILABILITY_ADDED" then
        applyUnavailabilityAdded s data
      else .ok s
    else .error .typeError

/-- `PROJECT_ADDED` (ledger.py lines 89–90):
`state_projects[data["project_id"]] = data`. -/
def applyProjectAdded (s : RState) (data : JVal) : Except PyErr RState :=
  match jGet data "project_id" with
  | .error e => .error e
  | .ok k =>
    if hashable k then .ok { s with projects := dSet s.projects k data }
    else .error .typeError

/-- `PROJECT_EDITED` (ledger.py lines 91–93): shallow merge if the
project is present. -/
def applyProjectEdited (s : RState) (data : JVal) : Except PyErr RState :=
  match jGet data "project_id" with
  | .error e => .error e
  | .ok k =>
    if hashable k then
      if dMem s.projects k then
        match dLookup s.projects k, data with
        | some (.obj r), .obj d =>
          .ok { s with projects := dSet s.projects k (.obj (oUpdate r d)) }
        | some _, _ => .error .attributeError
        | none, _ => .error .keyError
      else .ok s
    else .error .typeError

/-- `PROJECT_DELETED` (ledger.py lines 94–96): if present, set
`status` to `"Deleted"`. -/
def applyProjectDeleted (s : RState) (data : JVal) : Except PyErr RState :=
  match jGet data "project_id" with
  | .error e => .error e
  | .ok k =>
    if hashable k then
      if dMem s.projects k then
        match dLookup s.projects k with
        | some (.obj r) =>
          .ok { s with projects := dSet s.projects k (.obj (oSet r "status" (.str "Deleted"))) }
        | some _ => .error .typeError
        | none => .error .keyError
      else .ok s
    else .error .typeError

/-- `ALLOCATION_ADDED` (ledger.py lines 99–101):
`state_allocations[data["allocation_id"]] = data`. -/
def applyAllocationAdded (s : RState) (data : JVal) : Except PyErr RState :=
  match jGet data "allocation_id" with
  | .error e => .error e
  | .ok k =>
    if hashable k then .ok { s with allocations := dSet s.allocations k data }
    else .error .typeError

/-- `ALLOCATION_REMOVED` (ledger.py lines 102–105): hard delete if
present. -/
def applyAllocationRemoved (s : RState) (data : JVal) : Except PyErr RState :=
  match jGet data "allocation_id" with
  | .error e => .error e
  | .ok k =>
    if hashable k then
      if dMem s.allocations k then .ok { s with allocations := dDel s.allocations k }
      else .ok s
    else .error .typeError

/-- The event dispatch of `rebuild_state` (ledger.py lines 65–105),
after `e_type = event["event_type"]` and `data = event["payload"]`
have been extracted: the `if`/`elif` chain on `e_type`, with an
unrecognized type falling through as a no-op.  There is no top-level
`UNAVAILABILITY_ADDED` arm: in the source that test is nested inside
the `PERSON_OFFBOARDED` branch (line 77). -/
def applyEvent (s : RState) (etype data : JVal) : Except PyErr RState :=
  if jEqStr etype "PERSON_ADDED" then applyPersonAdded s data
  else if jEqStr etype "PERSON_EDITED" then applyPersonEdited s data
  else if jEqStr etype "PERSON_DELETED" then applyPersonDeleted s data
  else if jEqStr etype "PERSON_OFFBOARDED" then applyPersonOffboarded s etype data
  else if jEqStr etype "PROJECT_ADDED" then applyProjectAdded s data
  else if jEqStr etype "PROJECT_EDITED" then applyProjectEdited s data
  else if jEqStr etype "PROJECT_DELETED" then applyProjectDeleted s data
  else if jEqStr etype "ALLOCATION_ADDED" then applyAllocationAdded s data
  else if jEqStr etype "ALLOCATION_REMOVED" then applyAllocationRemoved s data
  else .ok s

/-- The loop body of `rebuild_state` for one journal line
(ledger.py lines 57–105): skip blank lines, let `json.loads` raise on
an unparseable line, then extract `event["event_type"]` and
`event["payload"]` and dispatch. -/
def processLine (s : RState) : Line → Except PyErr RState
  | .blank => .ok s
  | .corrupt => .error .jsonDecodeError
  | .val event =>
    match jGet event "event_type" with
    | .error e => .error e
    | .ok etype =>
      match jGet event "payload" with
      | .error e => .error e
      | .ok data => applyEvent s etype data

/-- `for line in f: …` from a given starting state. -/
def runLines (s : RState) : List Line → Except PyErr RState
  | [] => .ok s
  | l :: t =>
    match processLine s l with
    | .ok s' => runLines s' t
    | .error e => .error e

/-- The full reduction of a journal read as a list of lines
(ledger.py lines 44–105): fold the loop body from the empty state. -/
def reduceLines (ls : List Line) : Except PyErr RState :=
  runLines emptyState ls

/-- `rebuild_state` on the journal file: `none` when the journal file
does not exist (the three maps stay empty, lines 49–53), otherwise
the reduction of its lines. -/
def rebuild_state (journal : Option (List Line)) : Except PyErr RState :=
  match journal with
  | none => .ok emptyState
  | some ls => reduceLines ls

/-! ## The writer (`append_event`, ledger.py lines 18–34) -/

/-- The event dict built by `append_event` (lines 22–27).  The fresh
`uuid.uuid4()` string and the `datetime.now(timezone.utc)` timestamp
are environment inputs, passed in as parameters; `json.dumps` /
`json.loads` round-trip the value unchanged. -/
def mkEvent (eid now etype : String) (payload : JVal) : JVal :=
  .obj [("event_id", .str eid), ("timestamp", .str now),
        ("event_type", .str etype), ("payload", payload)]

instance {ε α : Type} [DecidableEq ε] [DecidableEq α] : DecidableEq (Except ε α) :=
  fun x y =>
    match x, y with
    | .ok a, .ok b => if h : a = b then .isTrue (by rw [h]) else .isFalse (by simp [h])
    | .error a, .error b => if h : a = b then .isTrue (by rw [h]) else .isFalse (by simp [h])
    | .ok _, .error _ => .isFalse (by simp)
    | .error _, .ok _ => .isFalse (by simp)

/-- What a call to `append_event` produces: the journal file after
the append, the outcome of the synchronous `rebuild_state()` call,
and the function's Python return value. -/
structure AppendResult : Type where
  journal : List Line
  rebuilt : Except PyErr RState
  ret : Option String
  deriving DecidableEq

/-- `append_event(event_type, payload)` (ledger.py lines 18–34):
build the stamped event, write it as one new line at the end of the
journal, then call `rebuild_state()`.  The function body has no
`return` statement, so the Python return value is `None`. -/
def append_event (journal : List Line) (eid now etype : String) (payload : JVal) :
    AppendResult :=
  let event := mkEvent eid now etype payload
  let journal' := journal ++ [Line.val event]
  { journal := journal', rebuilt := rebuild_state (some journal'), ret := none }

/-! ## The state-store files (`_save_state` / `load_state`,
ledger.py lines 113–125) -/

/-- A state-store file abstracted by what `json.load` makes of it:
`missing` (the file does not exist — `open` raises
`FileNotFoundError`), `corrupt` (contents are not valid JSON —
`json.load` raises `JSONDecodeError`; in particular a truncated or
empty file), or `valid m` (contents deserialize to the map `m`). -/
inductive FileState : Type where
  | missing : FileState
  | corrupt : FileState
  | valid : List (JVal × JVal) → FileState
  deriving DecidableEq

/-- `load_state(filepath)` (ledger.py lines 119–125): return the
parsed map; both `FileNotFoundError` and `json.JSONDecodeError` are
caught and give `{}`.  The function is total — it never raises. -/
def load_state : FileState → List (JVal × JVal)
  | .missing => []
  | .corrupt => []
  | .valid m => m

/-- The contents of the state file observable at each crash point of
`_save_state(filepath, data)` (ledger.py lines 114–117): before the
call the file holds `old`; `filepath.open("w")` immediately truncates
it in place (an empty file, and every strict prefix of the
`json.dump(data, f, indent=2)` output, is not valid JSON, hence
`corrupt`); after `json.dump` completes it holds the new map.  There
is no temporary file and no rename. -/
def save_state_trace (old : FileState) (data : List (JVal × JVal)) : List FileState :=
  [old, .corrupt, .valid data]

/-! ## Payload well-formedness

`json.loads` never produces a dict with duplicate keys (a duplicated
key in the JSON text collapses to its last occurrence), so every
payload object in a real journal has pairwise-distinct keys.  The
key-consistency invariant quantifies over journals satisfying this. -/

/-- The top-level keys of the line's payload object are pairwise
distinct (vacuously true for lines without a payload object — those
never store a record). -/
def payloadKeysNodup : Line → Bool
  | .val v =>
    match jGet v "payload" with
    | .ok (.obj d) => decide (d.map Prod.fst).Nodup
    | _ => true
  | _ => true

/-! ## Concrete journal fixtures used in the claim theorems -/

/-- The payload fields of the spec's "Ann" example person. -/
def annFields : List (String × JVal) :=
  [("email", .str "a@x.com"), ("name", .str "Ann"), ("capacity", .num 40),
   ("skill", .arr [.str "Go:5"]), ("is_active", .bool true)]

def annPayload : JVal := .obj annFields

def annAddedLine : Line :=
  .val (mkEvent "id-1" "2026-01-01T00:00:00+00:00" "PERSON_ADDED" annPayload)

/-- The edit payload of the spec's shallow-merge example. -/
def annEditFields : List (String × JVal) :=
  [("email", .str "a@x.com"), ("capacity", .num 50)]

def annEditedLine : Line :=
  .val (mkEvent "id-2" "2026-01-02T00:00:00+00:00" "PERSON_EDITED" (.obj annEditFields))

/-- Ann's record after the shallow merge: `capacity` overwritten in
place, every other field untouched. -/
def annMergedRecord : JVal :=
  .obj [("email", .str "a@x.com"), ("name", .str "Ann"), ("capacity", .num 50),
        ("skill", .arr [.str "Go:5"]), ("is_active", .bool true)]

def unavailPayload : JVal :=
  .obj [("email", .str "a@x.com"), ("start_date", .str "2026-03-01"),
        ("end_date", .str "2026-03-05")]

def unavailAddedLine : Line :=
  .val (mkEvent "id-3" "2026-01-03T00:00:00+00:00" "UNAVAILABILITY_ADDED" unavailPayload)

def annDeletedLine : Line :=
  .val (mkEvent "id-4" "2026-01-04T00:00:00+00:00" "PERSON_DELETED"
    (.obj [("email", .str "a@x.com")]))

/-- A second PERSON_ADDED for the same email, with a fresh payload. -/
def bobPayload : JVal := .obj [("email", .str "a@x.com"), ("name", .str "Bob")]

def bobAddedLine : Line :=
  .val (mkEvent "id-5" "2026-01-05T00:00:00+00:00" "PERSON_ADDED" bobPayload)

/-- A PERSON_EDITED event whose payload is missing the required
"email" key. -/
def editNoEmailLine : Line :=
  .val (mkEvent "id-6" "2026-01-06T00:00:00+00:00" "PERSON_EDITED" (.obj []))

/-- A state whose People map holds exactly Ann's record. -/
def onePersonState : RState := ⟨[(.str "a@x.com", annPayload)], [], []⟩

/-! ## Invariant predicates (for the key-consistency claim) -/

/-- Every entry of a materialized map stores its own key in the
record under the named field: `m[k][field] == k`. -/
def KeyConsistent (m : List (JVal × JVal)) (field : String) : Prop :=
  ∀ p ∈ m, jGet p.2 field = .ok p.1

/-- Every stored record is a JSON object with pairwise-distinct
top-level keys. -/
def RecordsWF (m : List (JVal × JVal)) : Prop :=
  ∀ p ∈ m, ∃ r, p.2 = JVal.obj r ∧ (r.map Prod.fst).Nodup

/-- The key-consistency invariant of the three maps, strengthened
with well-formedness of the stored records (needed for induction). -/
def Inv (s : RState) : Prop :=
  (KeyConsistent s.people "email" ∧ RecordsWF s.people) ∧
  (KeyConsistent s.projects "project_id" ∧ RecordsWF s.projects) ∧
  (KeyConsistent s.allocations "allocation_id" ∧ RecordsWF s.allocations)

/-! ## Lemmas about the dict operations -/

theorem oLookup_eq_none_iff (r : List (String × JVal)) (f : String) :
    oLookup r f = none ↔ f ∉ r.map Prod.fst := by
  induction r with
  | nil => simp [oLookup]
  | cons hd t ih =>
    obtain ⟨k0, v0⟩ := hd
    by_cases h0 : k0 = f
    · subst h0
      simp [oLookup]
    · simp [oLookup, h0, ih, Ne.symm h0]

theorem oLookup_oSet (r : List (String × JVal)) (k : String) (v : JVal) (f : String) :
    oLookup (oSet r k v) f = if f = k then some v else oLookup r f := by
  induction r with
  | nil =>
    by_cases h : f = k
    · subst h
      simp [oSet, oLookup]
    · simp [oSet, oLookup, h, Ne.symm h]
  | cons hd t ih =>
    obtain ⟨k0, v0⟩ := hd
    by_cases h0 : k0 = k
    · subst h0
      by_cases h : f = k0
      · subst h
        simp [oSet, oLookup]
      · simp [oSet, oLookup, h, Ne.symm h]
    · by_cases h : f = k0
      · subst h
        simp [oSet, oLookup, h0, fun hh : f = k => h0 (hh ▸ rfl)]
      · simp [oSet, oLookup, h0, Ne.symm h, ih]

theorem keys_oSet (r : List (String × JVal)) (k : String) (v : JVal) :
    (oSet r k v).map Prod.fst =
      if oLookup r k = none then r.map Prod.fst ++ [k] else r.map Prod.fst := by
  induction r with
  | nil => simp [oSet, oLookup]
  | cons hd t ih =>
    obtain ⟨k0, v0⟩ := hd
    by_cases h0 : k0 = k
    · subst h0
      simp [oSet, oLookup]
    · simp only [oSet, if_neg h0, List.map_cons, oLookup, ih]
      by_cases hn : oLookup t k = none <;> simp [hn]

theorem nodup_oSet (r : List (String × JVal)) (k : String) (v : JVal)
    (h : (r.map Prod.fst).Nodup) : ((oSet r k v).map Prod.fst).Nodup := by
  rw [keys_oSet]
  by_cases hn : oLookup r k = none
  · rw [if_pos hn]
    have hk : k ∉ r.map Prod.fst := (oLookup_eq_none_iff r k).mp hn
    simp [List.nodup_append, h, hk]
  · rw [if_neg hn]
    exact h

theorem oLookup_oUpdate (d : List (String × JVal)) (r : List (String × JVal)) (f : String)
    (hd : (d.map Prod.fst).Nodup) :
    oLookup (oUpdate r d) f =
      match oLookup d f with
      | some v => some v
      | none => oLookup r f := by
  induction d generalizing r with
  | nil => simp [oUpdate, oLookup]
  | cons hd1 t ih =>
    obtain ⟨k1, v1⟩ := hd1
    rw [List.map_cons, List.nodup_cons] at hd
    obtain ⟨hk1, hnd⟩ := hd
    have step : oUpdate r ((k1, v1) :: t) = oUpdate (oSet r k1 v1) t := rfl
    rw [step, ih (oSet r k1 v1) hnd]
    by_cases h : f = k1
    · subst h
      have hnone : oLookup t f = none := (oLookup_eq_none_iff t f).mpr hk1
      simp [oLookup, hnone, oLookup_oSet]
    · cases hf : oLookup t f with
      | none => simp [oLookup, hf, Ne.symm h, oLookup_oSet, h]
      | some v => simp [oLookup, hf, Ne.symm h]

theorem nodup_oUpdate (d : List (String × JVal)) (r : List (String × JVal))
    (h : (r.map Prod.fst).Nodup) : ((oUpdate r d).map Prod.fst).Nodup := by
  induction d generalizing r with
  | nil => simpa [oUpdate] using h
  | cons hd1 t ih =>
    obtain ⟨k1, v1⟩ := hd1
    have step : oUpdate r ((k1, v1) :: t) = oUpdate (oSet r k1 v1) t := rfl
    rw [step]
    exact ih (oSet r k1 v1) (nodup_oSet r k1 v1 h)

theorem mem_dSet (m : List (JVal × JVal)) (k v : JVal) (p : JVal × JVal)
    (h : p ∈ dSet m k v) : (p.1 = k ∧ p.2 = v) ∨ p ∈ m := by
  induction m with
  | nil =>
    simp only [dSet, List.mem_singleton] at h
    subst h
    exact Or.inl ⟨rfl, rfl⟩
  | cons hd t ih =>
    obtain ⟨k0, v0⟩ := hd
    by_cases h0 : k0 = k
    · subst h0
      simp [dSet, List.mem_cons] at h
      rcases h with rfl | h
      · exact Or.inl ⟨rfl, rfl⟩
      · exact Or.inr (List.mem_cons_of_mem _ h)
    · simp only [dSet, if_neg h0, List.mem_cons] at h
      rcases h with rfl | h
      · exact Or.inr (List.mem_cons_self _ _)
      · rcases ih h with h' | h'
        · exact Or.inl h'
        · exact Or.inr (List.mem_cons_of_mem _ h')

theorem mem_dDel (m : List (JVal × JVal)) (k : JVal) (p : JVal × JVal)
    (h : p ∈ dDel m k) : p ∈ m := by
  induction m with
  | nil => simp [dDel] at h
  | cons hd t ih =>
    obtain ⟨k0, v0⟩ := hd
    by_cases h0 : k0 = k
    · simp only [dDel, if_pos h0] at h
      exact List.mem_cons_of_mem _ h
    · simp only [dDel, if_neg h0, List.mem_cons] at h
      rcases h with rfl | h
      · exact List.mem_cons_self _ _
      · exact List.mem_cons_of_mem _ (ih h)

theorem dLookup_mem (m : List (JVal × JVal)) (k v : JVal)
    (h : dLookup m k = some v) : (k, v) ∈ m := by
  induction m with
  | nil => simp [dLookup] at h
  | cons hd t ih =>
    obtain ⟨k0, v0⟩ := hd
    by_cases h0 : k0 = k
    · subst h0
      simp [dLookup] at h
      subst h
      exact List.mem_cons_self _ _
    · simp only [dLookup, if_neg h0] at h
      exact List.mem_cons_of_mem _ (ih h)

theorem jGet_ok (v : JVal) (f : String) (u : JVal) (h : jGet v f = .ok u) :
    ∃ kvs, v = JVal.obj kvs ∧ oLookup kvs f = some u := by
  cases v with
  | obj kvs =>
    refine ⟨kvs, rfl, ?_⟩
    cases ho : oLookup kvs f with
    | none =>
      rw [jGet, ho] at h
      exact Except.noConfusion h
    | some w =>
      rw [jGet, ho] at h
      simp only [Except.ok.injEq] at h
      rw [h]
  | str a => exact Except.noConfusion h
  | num n => exact Except.noConfusion h
  | bool b => exact Except.noConfusion h
  | null => exact Except.noConfusion h
  | arr xs => exact Except.noConfusion h

theorem jEqStr_eq (v : JVal) (a : String) (h : jEqStr v a = true) : v = .str a := by
  cases v with
  | str b =>
    rw [jEqStr, beq_iff_eq] at h
    rw [h]
  | num n => exact Bool.noConfusion h
  | bool b => exact Bool.noConfusion h
  | null => exact Bool.noConfusion h
  | arr xs => exact Bool.noConfusion h
  | obj kvs => exact Bool.noConfusion h

theorem jEqStr_unique (v : JVal) (a b : String) (ha : jEqStr v a = true)
    (hb : jEqStr v b = true) : a = b := by
  have h1 := jEqStr_eq v a ha
  have h2 := jEqStr_eq v b hb
  rw [h1] at h2
  exact (JVal.str.injEq a b ▸ congrArg id h2 : a = b)

/-- Inserting a well-formed record whose `field` holds its own key
preserves key consistency and record well-formedness. -/
theorem KC_RW_dSet (m : List (JVal × JVal)) (field : String) (k : JVal)
    (rec : List (String × JVal))
    (hKC : KeyConsistent m field) (hRW : RecordsWF m)
    (hk : oLookup rec field = some k) (hnd : (rec.map Prod.fst).Nodup) :
    KeyConsistent (dSet m k (.obj rec)) field ∧ RecordsWF (dSet m k (.obj rec)) := by
  constructor
  · intro p hp
    rcases mem_dSet m k _ p hp with ⟨h1, h2⟩ | hin
    · rw [h2, h1, jGet, hk]
    · exact hKC p hin
  · intro p hp
    rcases mem_dSet m k _ p hp with ⟨h1, h2⟩ | hin
    · exact ⟨rec, h2, hnd⟩
    · exact hRW p hin

theorem dLookup_dSet (m : List (JVal × JVal)) (k v f : JVal) :
    dLookup (dSet m k v) f = if f = k then some v else dLookup m f := by
  induction m with
  | nil =>
    by_cases h : f = k
    · subst h
      simp [dSet, dLookup]
    · simp [dSet, dLookup, h, Ne.symm h]
  | cons hd t ih =>
    obtain ⟨k0, v0⟩ := hd
    by_cases h0 : k0 = k
    · subst h0
      by_cases h : f = k0
      · subst h
        simp [dSet, dLookup]
      · simp [dSet, dLookup, h, Ne.symm h]
    · by_cases h : f = k0
      · subst h
        simp [dSet, dLookup, h0, fun hh : f = k => h0 (hh ▸ rfl)]
      · simp [dSet, dLookup, h0, Ne.symm h, ih]



/-- A record already stored in a key-consistent, well-formed map
holds its own key under `field` and has distinct keys. -/
theorem stored_record_facts (m : List (JVal × JVal)) (field : String) (k : JVal)
    (r : List (String × JVal)) (hKC : KeyConsistent m field) (hRW : RecordsWF m)
    (hdl : dLookup m k = some (.obj r)) :
    oLookup r field = some k ∧ (r.map Prod.fst).Nodup := by
  have hmem : (k, JVal.obj r) ∈ m := dLookup_mem m k _ hdl
  have hkc := hKC _ hmem
  obtain ⟨r', hr', hnd⟩ := hRW _ hmem
  simp only [JVal.obj.injEq] at hr'
  subst hr'
  obtain ⟨kvs, hkvs, hol⟩ := jGet_ok _ field k hkc
  simp only [JVal.obj.injEq] at hkvs
  subst hkvs
  exact ⟨hol, hnd⟩

theorem applyPersonAdded_inv (s : RState) (data : JVal) (s' : RState)
    (hInv : Inv s) (hnd : ∀ d, data = JVal.obj d → (d.map Prod.fst).Nodup)
    (h : applyPersonAdded s data = .ok s') : Inv s' := by
  obtain ⟨hp, hj, ha⟩ := hInv
  unfold applyPersonAdded at h
  split at h
  · exact Except.noConfusion h
  · rename_i k heq
    split at h
    · simp only [Except.ok.injEq] at h
      subst h
      obtain ⟨d, hdata, hok⟩ := jGet_ok data "email" k heq
      subst hdata
      exact ⟨KC_RW_dSet s.people "email" k d hp.1 hp.2 hok (hnd d rfl), hj, ha⟩
    · exact Except.noConfusion h

theorem applyPersonEdited_inv (s : RState) (data : JVal) (s' : RState)
    (hInv : Inv s) (hnd : ∀ d, data = JVal.obj d → (d.map Prod.fst).Nodup)
    (h : applyPersonEdited s data = .ok s') : Inv s' := by
  obtain ⟨hp, hj, ha⟩ := hInv
  unfold applyPersonEdited at h
  split at h
  · exact Except.noConfusion h
  · rename_i k heq
    split at h
    · split at h
      · rename_i hmem
        obtain ⟨d0, hdata, hok⟩ := jGet_ok data "email" k heq
        subst hdata
        simp only [dMem] at hmem
        obtain ⟨v, hdl⟩ := Option.isSome_iff_exists.mp hmem
        obtain ⟨r, hvr, hndr⟩ := hp.2 _ (dLookup_mem _ _ _ hdl)
        have hv : v = JVal.obj r := hvr
        subst hv
        rw [hdl] at h
        simp only [Except.ok.injEq] at h
        subst h
        have hlu : oLookup (oUpdate r d0) "email" = some k := by
          rw [oLookup_oUpdate d0 r "email" (hnd d0 rfl), hok]
        exact ⟨KC_RW_dSet s.people "email" k (oUpdate r d0) hp.1 hp.2 hlu
          (nodup_oUpdate d0 r hndr), hj, ha⟩
      · simp only [Except.ok.injEq] at h
        subst h
        exact ⟨hp, hj, ha⟩
    · exact Except.noConfusion h

theorem applyPersonDeleted_inv (s : RState) (data : JVal) (s' : RState)
    (hInv : Inv s)
    (h : applyPersonDeleted s data = .ok s') : Inv s' := by
  obtain ⟨hp, hj, ha⟩ := hInv
  unfold applyPersonDeleted at h
  split at h
  · exact Except.noConfusion h
  · rename_i k heq
    split at h
    · split at h
      · split at h
        · rename_i r hdl
          simp only [Except.ok.injEq] at h
          subst h
          obtain ⟨hok, hndr⟩ := stored_record_facts s.people "email" k r hp.1 hp.2 hdl
          have hlu : oLookup (oSet r "is_active" (.bool false)) "email" = some k := by
            rw [oLookup_oSet]
            simp [hok]
          exact ⟨KC_RW_dSet s.people "email" k (oSet r "is_active" (.bool false)) hp.1 hp.2 hlu
            (nodup_oSet r "is_active" (.bool false) hndr), hj, ha⟩
        · exact Except.noConfusion h
        · exact Except.noConfusion h
      · simp only [Except.ok.injEq] at h
        subst h
        exact ⟨hp, hj, ha⟩
    · exact Except.noConfusion h

theorem applyUnavailabilityAdded_inv (s : RState) (data : JVal) (s' : RState)
    (hInv : Inv s)
    (h : applyUnavailabilityAdded s data = .ok s') : Inv s' := by
  obtain ⟨hp, hj, ha⟩ := hInv
  unfold applyUnavailabilityAdded at h
  split at h
  · exact Except.noConfusion h
  · rename_i email heq
    split at h
    · split at h
      · split at h
        · rename_i r0 hdl
          obtain ⟨hok, hndr⟩ := stored_record_facts s.people "email" email r0 hp.1 hp.2 hdl
          have hok1 : oLookup (unavailInit r0) "email" = some email := by
            unfold unavailInit
            split
            · exact hok
            · rw [oLookup_oSet]
              simp [hok]
          have hnd1 : ((unavailInit r0).map Prod.fst).Nodup := by
            unfold unavailInit
            split
            · exact hndr
            · exact nodup_oSet r0 "unavailability" (.arr []) hndr
          split at h
          · rename_i xs hxs
            split at h
            · exact Except.noConfusion h
            · rename_i sd hsd
              split at h
              · exact Except.noConfusion h
              · rename_i ed2 hed2
                split at h
                · exact Except.noConfusion h
                · rename_i rsn hrsn
                  simp only [Except.ok.injEq] at h
                  subst h
                  have hlu : oLookup (oSet (unavailInit r0) "unavailability"
                      (.arr (xs ++ [.obj [("start_date", sd), ("end_date", ed2),
                        ("reason", rsn)]]))) "email" = some email := by
                    rw [oLookup_oSet]
                    simp [hok1]
                  exact ⟨KC_RW_dSet s.people "email" email _ hp.1 hp.2 hlu
                    (nodup_oSet (unavailInit r0) "unavailability" _ hnd1), hj, ha⟩
          · exact Except.noConfusion h
          · exact Except.noConfusion h
        · exact Except.noConfusion h
        · exact Except.noConfusion h
      · simp only [Except.ok.injEq] at h
        subst h
        exact ⟨hp, hj, ha⟩
    · exact Except.noConfusion h

theorem applyPersonOffboarded_inv (s : RState) (etype data : JVal) (s' : RState)
    (hInv : Inv s)
    (h : applyPersonOffboarded s etype data = .ok s') : Inv s' := by
  obtain ⟨hp, hj, ha⟩ := hInv
  unfold applyPersonOffboarded at h
  split at h
  · exact Except.noConfusion h
  · rename_i k heq
    split at h
    · split at h
      · split at h
        · exact Except.noConfusion h
        · rename_i ed hed
          split at h
          · rename_i r hdl
            simp only [Except.ok.injEq] at h
            subst h
            obtain ⟨hok, hndr⟩ := stored_record_facts s.people "email" k r hp.1 hp.2 hdl
            have hlu : oLookup (oSet r "exit_date" ed) "email" = some k := by
              rw [oLookup_oSet]
              simp [hok]
            exact ⟨KC_RW_dSet s.people "email" k (oSet r "exit_date" ed) hp.1 hp.2 hlu
              (nodup_oSet r "exit_date" ed hndr), hj, ha⟩
          · exact Except.noConfusion h
          · exact Except.noConfusion h
      · split at h
        · exact applyUnavailabilityAdded_inv s data s' ⟨hp, hj, ha⟩ h
        · simp only [Except.ok.injEq] at h
          subst h
          exact ⟨hp, hj, ha⟩
    · exact Except.noConfusion h

theorem applyProjectAdded_inv (s : RState) (data : JVal) (s' : RState)
    (hInv : Inv s) (hnd : ∀ d, data = JVal.obj d → (d.map Prod.fst).Nodup)
    (h : applyProjectAdded s data = .ok s') : Inv s' := by
  obtain ⟨hp, hj, ha⟩ := hInv
  unfold applyProjectAdded at h
  split at h
  · exact Except.noConfusion h
  · rename_i k heq
    split at h
    · simp only [Except.ok.injEq] at h
      subst h
      obtain ⟨d, hdata, hok⟩ := jGet_ok data "project_id" k heq
      subst hdata
      exact ⟨hp, KC_RW_dSet s.projects "project_id" k d hj.1 hj.2 hok (hnd d rfl), ha⟩
    · exact Except.noConfusion h

theorem applyProjectEdited_inv (s : RState) (data : JVal) (s' : RState)
    (hInv : Inv s) (hnd : ∀ d, data = JVal.obj d → (d.map Prod.fst).Nodup)
    (h : applyProjectEdited s data = .ok s') : Inv s' := by
  obtain ⟨hp, hj, ha⟩ := hInv
  unfold applyProjectEdited at h
  split at h
  · exact Except.noConfusion h
  · rename_i k heq
    split at h
    · split at h
      · rename_i hmem
        obtain ⟨d0, hdata, hok⟩ := jGet_ok data "project_id" k heq
        subst hdata
        simp only [dMem] at hmem
        obtain ⟨v, hdl⟩ := Option.isSome_iff_exists.mp hmem
        obtain ⟨r, hvr, hndr⟩ := hj.2 _ (dLookup_mem _ _ _ hdl)
        have hv : v = JVal.obj r := hvr
        subst hv
        rw [hdl] at h
        simp only [Except.ok.injEq] at h
        subst h
        have hlu : oLookup (oUpdate r d0) "project_id" = some k := by
          rw [oLookup_oUpdate d0 r "project_id" (hnd d0 rfl), hok]
        exact ⟨hp, KC_RW_dSet s.projects "project_id" k (oUpdate r d0) hj.1 hj.2 hlu
          (nodup_oUpdate d0 r hndr), ha⟩
      · simp only [Except.ok.injEq] at h
        subst h
        exact ⟨hp, hj, ha⟩
    · exact Except.noConfusion h

theorem applyProjectDeleted_inv (s : RState) (data : JVal) (s' : RState)
    (hInv : Inv s)
    (h : applyProjectDeleted s data = .ok s') : Inv s' := by
  obtain ⟨hp, hj, ha⟩ := hInv
  unfold applyProjectDeleted at h
  split at h
  · exact Except.noConfusion h
  · rename_i k heq
    split at h
    · split at h
      · split at h
        · rename_i r hdl
          simp only [Except.ok.injEq] at h
          subst h
          obtain ⟨hok, hndr⟩ := stored_record_facts s.projects "project_id" k r hj.1 hj.2 hdl
          have hlu : oLookup (oSet r "status" (.str "Deleted")) "project_id" = some k := by
            rw [oLookup_oSet]
            simp [hok]
          exact ⟨hp, KC_RW_dSet s.projects "project_id" k (oSet r "status" (.str "Deleted"))
            hj.1 hj.2 hlu (nodup_oSet r "status" (.str "Deleted") hndr), ha⟩
        · exact Except.noConfusion h
        · exact Except.noConfusion h
      · simp only [Except.ok.injEq] at h
        subst h
        exact ⟨hp, hj, ha⟩
    · exact Except.noConfusion h

theorem applyAllocationAdded_inv (s : RState) (data : JVal) (s' : RState)
    (hInv : Inv s) (hnd : ∀ d, data = JVal.obj d → (d.map Prod.fst).Nodup)
    (h : applyAllocationAdded s data = .ok s') : Inv s' := by
  obtain ⟨hp, hj, ha⟩ := hInv
  unfold applyAllocationAdded at h
  split at h
  · exact Except.noConfusion h
  · rename_i k heq
    split at h
    · simp only [Except.ok.injEq] at h
      subst h
      obtain ⟨d, hdata, hok⟩ := jGet_ok data "allocation_id" k heq
      subst hdata
      exact ⟨hp, hj, KC_RW_dSet s.allocations "allocation_id" k d ha.1 ha.2 hok (hnd d rfl)⟩
    · exact Except.noConfusion h

theorem applyAllocationRemoved_inv (s : RState) (data : JVal) (s' : RState)
    (hInv : Inv s)
    (h : applyAllocationRemoved s data = .ok s') : Inv s' := by
  obtain ⟨hp, hj, ha⟩ := hInv
  unfold applyAllocationRemoved at h
  split at h
  · exact Except.noConfusion h
  · rename_i k heq
    split at h
    · split at h
      · simp only [Except.ok.injEq] at h
        subst h
        refine ⟨hp, hj, ?_, ?_⟩
        · intro p hpm
          exact ha.1 p (mem_dDel s.allocations k p hpm)
        · intro p hpm
          exact ha.2 p (mem_dDel s.allocations k p hpm)
      · simp only [Except.ok.injEq] at h
        subst h
        exact ⟨hp, hj, ha⟩
    · exact Except.noConfusion h

/-- Every successful step of the event dispatch preserves the
key-consistency invariant, provided the payload object (when there is
one) has pairwise-distinct keys. -/
theorem applyEvent_inv (s : RState) (etype data : JVal) (s' : RState)
    (hInv : Inv s)
    (hnd : ∀ d, data = JVal.obj d → (d.map Prod.fst).Nodup)
    (h : applyEvent s etype data = .ok s') : Inv s' := by
  unfold applyEvent at h
  split at h
  · exact applyPersonAdded_inv s data s' hInv hnd h
  · split at h
    · exact applyPersonEdited_inv s data s' hInv hnd h
    · split at h
      · exact applyPersonDeleted_inv s data s' hInv h
      · split at h
        · exact applyPersonOffboarded_inv s etype data s' hInv h
        · split at h
          · exact applyProjectAdded_inv s data s' hInv hnd h
          · split at h
            · exact applyProjectEdited_inv s data s' hInv hnd h
            · split at h
              · exact applyProjectDeleted_inv s data s' hInv h
              · split at h
                · exact applyAllocationAdded_inv s data s' hInv hnd h
                · split at h
                  · exact applyAllocationRemoved_inv s data s' hInv h
                  · simp only [Except.ok.injEq] at h
                    subst h
                    exact hInv

/-- Lifting the preservation result to one journal line. -/
theorem processLine_inv (s : RState) (l : Line) (s' : RState)
    (hInv : Inv s) (hwf : payloadKeysNodup l = true)
    (h : processLine s l = .ok s') : Inv s' := by
  cases l with
  | blank =>
    simp only [processLine, Except.ok.injEq] at h
    subst h
    exact hInv
  | corrupt => exact Except.noConfusion h
  | val v =>
    simp only [processLine] at h
    split at h
    · exact Except.noConfusion h
    · rename_i etype het
      split at h
      · exact Except.noConfusion h
      · rename_i data hdat
        refine applyEvent_inv s etype data s' hInv ?_ h
        intro d hd
        simp only [payloadKeysNodup] at hwf
        rw [hdat, hd] at hwf
        simpa using hwf

/-- Lifting the preservation result along the whole fold. -/
theorem runLines_inv (ls : List Line) (s : RState) (s' : RState)
    (hInv : Inv s) (hwf : ∀ l ∈ ls, payloadKeysNodup l = true)
    (h : runLines s ls = .ok s') : Inv s' := by
  induction ls generalizing s with
  | nil =>
    simp only [runLines, Except.ok.injEq] at h
    subst h
    exact hInv
  | cons l t ih =>
    unfold runLines at h
    split at h
    · rename_i s1 h1
      exact ih s1 (processLine_inv s l s1 hInv (hwf l (List.mem_cons_self l t)) h1)
        (fun x hx => hwf x (List.mem_cons_of_mem l hx)) h
    · exact Except.noConfusion h

/-- The empty state satisfies the invariant. -/
theorem emptyState_inv : Inv emptyState := by
  refine ⟨⟨?_, ?_⟩, ⟨?_, ?_⟩, ⟨?_, ?_⟩⟩ <;> intro p hp <;> exact absurd hp (List.not_mem_nil p)

/-- Splitting the fold over an appended journal segment. -/
theorem runLines_append (l1 l2 : List Line) (s : RState) :
    runLines s (l1 ++ l2) =
      match runLines s l1 with
      | .ok s1 => runLines s1 l2
      | .error e => .error e := by
  induction l1 generalizing s with
  | nil => simp [runLines]
  | cons l t ih =>
    rw [List.cons_append,
      show runLines s (l :: (t ++ l2)) = (match processLine s l with
        | .ok s1 => runLines s1 (t ++ l2)
        | .error e => .error e) from rfl,
      show runLines s (l :: t) = (match processLine s l with
        | .ok s1 => runLines s1 t
        | .error e => .error e) from rfl]
    cases hpl : processLine s l with
    | ok s1 => exact ih s1
    | error e => rfl

/-! ## Claim theorems -/

/-- Claim C1 (corrected): the reducer does not skip unparseable
journal lines.  If a journal's reduction succeeds, appending one
corrupt (unparseable) line makes the whole replay abort with
`json.JSONDecodeError` — `rebuild_state` calls `json.loads(line)`
with no exception handling — instead of producing the same state as
the parseable prefix.  Only whitespace-only lines are skipped. -/
theorem claim1_corrupt_tail_aborts (ls : List Line) (s : RState)
    (h : reduceLines ls = .ok s) :
    reduceLines (ls ++ [Line.corrupt]) = .error .jsonDecodeError ∧
    processLine s Line.blank = .ok s := by
  constructor
  · unfold reduceLines at h ⊢
    rw [runLines_append ls [Line.corrupt] emptyState, h]
    rfl
  · rfl

theorem claim1_witness :
    reduceLines ([annAddedLine] ++ [Line.corrupt]) = .error .jsonDecodeError ∧
    processLine ⟨[(.str "a@x.com", annPayload)], [], []⟩ Line.blank =
      .ok ⟨[(.str "a@x.com", annPayload)], [], []⟩ :=
  claim1_corrupt_tail_aborts [annAddedLine] ⟨[(.str "a@x.com", annPayload)], [], []⟩
    (by decide)

/-- Claim C1 counterexample: the journal `[PERSON_ADDED Ann, corrupt
line]` does not replay to the same state as `[PERSON_ADDED Ann]` —
the former aborts, the latter succeeds. -/
theorem claim1_counterexample :
    reduceLines [annAddedLine, Line.corrupt] ≠ reduceLines [annAddedLine] := by
  decide

/-- Claim C2 counterexample: a single PERSON_EDITED event whose
payload is missing the required "email" key makes the reduction
error with `KeyError` — it does not terminate with a state. -/
theorem claim2_counterexample :
    reduceLines [editNoEmailLine] = .error .keyError := by
  decide

/-- Claim C2 (corrected): the reducer raises rather than skipping
when a known event type's payload is missing a required key:
PERSON_EDITED without "email" and ALLOCATION_REMOVED without
"allocation_id" raise `KeyError` from any state, and
PERSON_OFFBOARDED without "exit_date" raises `KeyError` whenever the
payload's email is present in the People map.  The reduction aborts
at that event instead of skipping its effect. -/
theorem claim2_missing_key_raises (s : RState)
    (hm : dMem s.people (.str "a@x.com") = true) :
    applyEvent s (.str "PERSON_EDITED") (.obj []) = .error .keyError ∧
    applyEvent s (.str "ALLOCATION_REMOVED") (.obj []) = .error .keyError ∧
    applyEvent s (.str "PERSON_OFFBOARDED") (.obj [("email", .str "a@x.com")]) =
      .error .keyError := by
  refine ⟨rfl, rfl, ?_⟩
  show applyPersonOffboarded s (.str "PERSON_OFFBOARDED") (.obj [("email", .str "a@x.com")]) =
    .error .keyError
  unfold applyPersonOffboarded
  simp [jGet, oLookup, hashable, hm]

theorem claim2_witness :
    applyEvent onePersonState (.str "PERSON_EDITED") (.obj []) = .error .keyError ∧
    applyEvent onePersonState (.str "ALLOCATION_REMOVED") (.obj []) = .error .keyError ∧
    applyEvent onePersonState (.str "PERSON_OFFBOARDED")
      (.obj [("email", .str "a@x.com")]) = .error .keyError :=
  claim2_missing_key_raises onePersonState (by decide)

/-- Claim C3 (code bug): the `elif e_type == "UNAVAILABILITY_ADDED"`
arm is nested inside the `PERSON_OFFBOARDED` branch (ledger.py line
77), so it can never run.  A top-level UNAVAILABILITY_ADDED event is
a complete no-op — no entry is appended to anyone's unavailability
list — even when the payload's email is present in the People map.
The dead body itself (applyUnavailabilityAdded) would implement
exactly the claimed behavior, which shows the nesting is a slip. -/
theorem claim3_unavailability_dead_code :
    (∀ (s : RState) (data : JVal),
      applyEvent s (.str "UNAVAILABILITY_ADDED") data = .ok s) ∧
    reduceLines [annAddedLine, unavailAddedLine] =
      .ok ⟨[(.str "a@x.com", annPayload)], [], []⟩ ∧
    applyUnavailabilityAdded onePersonState unavailPayload =
      .ok ⟨[(.str "a@x.com", .obj (annFields ++ [("unavailability",
        .arr [.obj [("start_date", .str "2026-03-01"), ("end_date", .str "2026-03-05"),
          ("reason", .str "PTO")]])]))], [], []⟩ := by
  refine ⟨fun s data => rfl, by decide, by decide⟩

/-- Claim C4 counterexample: during `_save_state` the previously
persisted map (here Ann's People file) passes through a truncated,
unparseable intermediate that readers load as the empty map — the
previous state is not untouched, and a half-written file is
visible. -/
theorem claim4_counterexample :
    FileState.corrupt ∈ save_state_trace (FileState.valid [(.str "a@x.com", annPayload)]) [] ∧
    load_state FileState.corrupt ≠
      load_state (FileState.valid [(.str "a@x.com", annPayload)]) ∧
    FileState.corrupt ≠ FileState.valid [] := by
  decide

/-- Claim C4 (corrected): `_save_state` is not atomic.  It opens the
state file with mode "w", which truncates it in place before
`json.dump` writes the new contents; at a crash between those points
the file is corrupt (not valid JSON) and `load_state` returns the
empty map, so the previously persisted state is destroyed rather
than preserved.  The write completes to the new map only at the end
of the trace. -/
theorem claim4_save_state_not_atomic (old : FileState) (data : List (JVal × JVal)) :
    (save_state_trace old data).head? = some old ∧
    FileState.corrupt ∈ save_state_trace old data ∧
    (save_state_trace old data).getLast? = some (FileState.valid data) ∧
    load_state FileState.corrupt = [] := by
  refine ⟨rfl, ?_, rfl, rfl⟩
  simp [save_state_trace]

/-- Claim C5 counterexample: `append_event` has no `return`
statement; it returns `None`, not the new event's `event_id`. -/
theorem claim5_counterexample :
    (append_event [] "id-9" "2026-01-09T00:00:00+00:00" "PERSON_ADDED" annPayload).ret ≠
      some "id-9" := by
  decide

/-- Claim C5 (corrected): `append_event` appends exactly one new
record — stamped with the fresh `event_id` and the UTC timestamp
taken at append time — to the end of the journal, leaves every prior
record unchanged, then synchronously rebuilds the state from the new
journal; but it returns `None` rather than the event_id. -/
theorem claim5_append_event (journal : List Line) (eid now etype : String) (payload : JVal) :
    (append_event journal eid now etype payload).journal =
      journal ++ [Line.val (mkEvent eid now etype payload)] ∧
    (append_event journal eid now etype payload).journal.take journal.length = journal ∧
    (append_event journal eid now etype payload).journal.length = journal.length + 1 ∧
    (append_event journal eid now etype payload).rebuilt =
      rebuild_state (some ((append_event journal eid now etype payload).journal)) ∧
    (append_event journal eid now etype payload).ret = none := by
  refine ⟨rfl, ?_, by simp [append_event], rfl, rfl⟩
  simp [append_event, List.take_left]

/-- Claim C6 (confirmed): PERSON_EDITED is a shallow merge.  When the
payload's email is present, the stored record becomes the Python
`dict.update` of the old record with the payload: every field present
in the payload is overwritten, every field absent from it is
preserved; when the email was never added, the state is unchanged.
The concrete spec example (Ann, capacity 40 → 50, name preserved) is
included. -/
theorem claim6_shallow_merge :
    (∀ (s : RState) (d r : List (String × JVal)) (k : JVal),
      oLookup d "email" = some k → hashable k = true →
      dLookup s.people k = some (.obj r) → (d.map Prod.fst).Nodup →
      applyEvent s (.str "PERSON_EDITED") (.obj d) =
        .ok { s with people := dSet s.people k (.obj (oUpdate r d)) } ∧
      (∀ f, oLookup (oUpdate r d) f =
        match oLookup d f with
        | some v => some v
        | none => oLookup r f)) ∧
    (∀ (s : RState) (d : List (String × JVal)) (k : JVal),
      oLookup d "email" = some k → hashable k = true →
      dMem s.people k = false →
      applyEvent s (.str "PERSON_EDITED") (.obj d) = .ok s) ∧
    reduceLines [annAddedLine, annEditedLine] =
      .ok ⟨[(.str "a@x.com", annMergedRecord)], [], []⟩ := by
  refine ⟨?_, ?_, by decide⟩
  · intro s d r k h1 h2 h3 h4
    constructor
    · show applyPersonEdited s (.obj d) = _
      have hmem : dMem s.people k = true := by
        simp [dMem, h3]
      simp [applyPersonEdited, jGet, h1, h2, hmem, h3]
    · intro f
      exact oLookup_oUpdate d r f h4
  · intro s d k h1 h2 h3
    show applyPersonEdited s (.obj d) = .ok s
    simp [applyPersonEdited, jGet, h1, h2, h3]

theorem claim6_witness :
    applyEvent onePersonState (.str "PERSON_EDITED") (.obj annEditFields) =
      .ok ⟨dSet onePersonState.people (.str "a@x.com")
        (.obj (oUpdate annFields annEditFields)), [], []⟩ ∧
    (∀ f, oLookup (oUpdate annFields annEditFields) f =
      match oLookup annEditFields f with
      | some v => some v
      | none => oLookup annFields f) :=
  claim6_shallow_merge.1 onePersonState annEditFields annFields (.str "a@x.com")
    (by decide) (by decide) (by decide) (by decide)

/-- Claim C7 (confirmed): the reducer is a pure function of the
journal line sequence — running it on the same fixed sequence of
events always yields the same three maps. -/
theorem claim7_deterministic (ls1 ls2 : List Line) (h : ls1 = ls2) :
    reduceLines ls1 = reduceLines ls2 := by
  rw [h]

theorem claim7_witness :
    reduceLines [annAddedLine, annEditedLine] = reduceLines [annAddedLine, annEditedLine] :=
  claim7_deterministic [annAddedLine, annEditedLine] [annAddedLine, annEditedLine] rfl

/-- Claim C8 (confirmed): `load_state` is total — it returns the
deserialized map of a readable state file, and the empty map both
when the file has never been written (`FileNotFoundError`) and when
its contents are unreadable as JSON (`JSONDecodeError`); both
exceptions are caught, so nothing propagates to the caller. -/
theorem claim8_load_state_total :
    load_state FileState.missing = [] ∧ load_state FileState.corrupt = [] ∧
    (∀ m, load_state (FileState.valid m) = m) :=
  ⟨rfl, rfl, fun _ => rfl⟩

/-- Claim C9 (confirmed): key consistency is an invariant of replay.
After any successful reduction of a journal whose payload objects
have distinct keys (as `json.loads` guarantees), every People entry
stores its key under "email", every Projects entry under
"project_id", every Allocations entry under "allocation_id"; and
every single event application preserves the invariant. -/
theorem claim9_key_consistency (ls : List Line) (s : RState)
    (hwf : ∀ l ∈ ls, payloadKeysNodup l = true)
    (h : reduceLines ls = .ok s) :
    (KeyConsistent s.people "email" ∧ KeyConsistent s.projects "project_id" ∧
      KeyConsistent s.allocations "allocation_id") ∧
    (∀ (t t' : RState) (l : Line), Inv t → payloadKeysNodup l = true →
      processLine t l = .ok t' → Inv t') := by
  have hs := runLines_inv ls emptyState s emptyState_inv hwf h
  exact ⟨⟨hs.1.1, hs.2.1.1, hs.2.2.1⟩,
    fun t t' l hI hw hp => processLine_inv t l t' hI hw hp⟩

theorem claim9_witness :
    KeyConsistent (⟨[(.str "a@x.com", annMergedRecord)], [], []⟩ : RState).people "email" :=
  (claim9_key_consistency [annAddedLine, annEditedLine]
    ⟨[(.str "a@x.com", annMergedRecord)], [], []⟩ (by decide) (by decide)).1.1

/-- Claim C10 (confirmed): a second PERSON_ADDED for an email already
present replaces the stored record with the new payload wholesale —
the map entry becomes exactly the new payload, regardless of the old
record.  The concrete journal add/edit/delete/re-add shows the
accumulated `capacity`, `is_active` and other fields are discarded,
not merged. -/
theorem claim10_readd_replaces (s : RState) (d : List (String × JVal)) (k : JVal)
    (h1 : oLookup d "email" = some k) (h2 : hashable k = true) :
    applyEvent s (.str "PERSON_ADDED") (.obj d) =
      .ok { s with people := dSet s.people k (.obj d) } ∧
    dLookup (dSet s.people k (.obj d)) k = some (.obj d) ∧
    reduceLines [annAddedLine, annEditedLine, annDeletedLine, bobAddedLine] =
      .ok ⟨[(.str "a@x.com", bobPayload)], [], []⟩ := by
  refine ⟨?_, ?_, by decide⟩
  · show applyPersonAdded s (.obj d) = _
    simp [applyPersonAdded, jGet, h1, h2]
  · rw [dLookup_dSet]
    simp

theorem claim10_witness :
    applyEvent onePersonState (.str "PERSON_ADDED") (.obj [("email", .str "a@x.com"),
      ("name", .str "Bob")]) =
      .ok ⟨dSet onePersonState.people (.str "a@x.com")
        (.obj [("email", .str "a@x.com"), ("name", .str "Bob")]), [], []⟩ ∧
    dLookup (dSet onePersonState.people (.str "a@x.com")
      (.obj [("email", .str "a@x.com"), ("name", .str "Bob")])) (.str "a@x.com") =
      some (.obj [("email", .str "a@x.com"), ("name", .str "Bob")]) :=
  ⟨(claim10_readd_replaces onePersonState [("email", .str "a@x.com"), ("name", .str "Bob")]
      (.str "a@x.com") (by decide) (by decide)).1,
   (claim10_readd_replaces onePersonState [("email", .str "a@x.com"), ("name", .str "Bob")]
      (.str "a@x.com") (by decide) (by decide)).2.1⟩

end Rostr
